import Mathlib

/-!
Verification of the GEKKO options-trading backend (gekko-backend).

The development shallowly embeds the parts of the code base the claims
are about:

* `orders.py`  — `OrderManager.place_order`, `_place_market`,
  `_wait_for_fill`, `close_position`, `close_all_positions`.
  Broker interaction (the Zerodha `kite` object) is modelled by an
  explicit trace: whether each `kite.place_order` call raises, and the
  sequence of observations the fill-polling loop makes.
* `strategies.py` — `OptionScanner.fetch_and_update_chain` (strike
  band), `StrategyA.tick/_enter/_monitor_positions/_roll`,
  `StrategyB.tick/_enter/_monitor/_adjust_wing`.  At this layer the
  broker is an oracle giving the outcome of each `place_order` /
  `close_position` / `quote` call.
* `greeks.py`  — `BSGreeks`: `d1`, `d2`, `price`, `delta`, `gamma`,
  `theta`, `vega`, `implied_volatility`, `full_greeks`, over the reals
  (the Python code computes with IEEE doubles; the model is the ideal
  real-arithmetic semantics of the same formulas).
* `state.py`   — `AgentState.target_hit` / `sl_hit` and the fields the
  strategies touch.

Prices and quantities are rationals at the trading layer and reals at
the pricing layer.  Wall-clock reads (`datetime.now`) become explicit
environment fields.
-/

/-! ## Basic trading data (orders.py / state.py) -/

inductive Side
  | buy
  | sell
deriving DecidableEq, Repr

/-- The opposite transaction side, as computed by `close_position`:
`"sell" if pos["side"] == "buy" else "buy"`. -/
def Side.opposite : Side → Side
  | Side.buy => Side.sell
  | Side.sell => Side.buy

inductive OptType
  | CE
  | PE
deriving DecidableEq, Repr

/-- An instrument symbol `f"NIFTY{expiry}{strike}{opt_type}"`, modelled
structurally by its three varying components (the code builds and
compares these strings; for the fixed format the string is determined
by, and determines, the triple). -/
structure Symb where
  expiry : String
  strike : ℤ
  otype  : OptType
deriving DecidableEq, Repr

/-- One open leg, the dict appended to `state.positions` by
`OrderManager.place_order` (the wall-clock `time` field and the
broker-assigned `order_id`/`token` fields are not modelled; `ltp` and
`pnl` are initialised to `entry` and `0` exactly as in the source). -/
structure Pos where
  symbol : Symb
  side   : Side
  qty    : ℕ
  entry  : ℚ
  ltp    : ℚ
  pnl    : ℚ
deriving DecidableEq, Repr

inductive OrderType
  | LIMIT
  | MARKET
deriving DecidableEq, Repr

/-- A `kite.place_order` request as sent by `orders.py` (the fields the
claims talk about: symbol, transaction side, quantity, order type, and
the limit price when present). -/
structure OrderReq where
  symbol : Symb
  txn    : Side
  qty    : ℕ
  otype  : OrderType
  price  : Option ℚ
deriving DecidableEq, Repr

/-- A broker interaction performed by `place_order`. -/
inductive BrokerCall
  | place (req : OrderReq)
  | cancel
deriving DecidableEq, Repr

/-! ## `OrderManager._wait_for_fill`, `_place_market`, `place_order`

`_wait_for_fill` polls the order book up to `timeout` times.  Each poll
either finds the order `COMPLETE` (with an average fill price), finds it
in a terminal failure state (`REJECTED`/`CANCELLED`), or observes
nothing decisive (order absent, still open, or the poll itself raised —
all of which make the Python loop continue). -/

inductive PollOutcome
  | complete (avg : ℚ)
  | rejected
  | pending
deriving DecidableEq, Repr

/-- `OrderManager._wait_for_fill` on a given sequence of poll
observations: first `COMPLETE` returns its average price, first
`REJECTED`/`CANCELLED` returns `None`, exhausting the polls returns
`None`.  The caller passes the first `timeout` observations. -/
def wait_for_fill : List PollOutcome → Option ℚ
  | [] => none
  | PollOutcome.complete p :: _ => some p
  | PollOutcome.rejected :: _ => none
  | PollOutcome.pending :: rest => wait_for_fill rest

/-- The broker behaviour one `place_order` call observes: whether the
LIMIT placement raises, the poll trace for the LIMIT order, whether the
fallback MARKET placement raises, and the poll trace for the MARKET
order. -/
structure OrderBroker where
  limit_ok     : Bool
  limit_polls  : List PollOutcome
  market_ok    : Bool
  market_polls : List PollOutcome

/-- `OrderManager._place_market`: submit a MARKET order and poll up to
15 times; a raised placement yields `None`.  Also returns the broker
call made. -/
def place_market (b : OrderBroker) (symbol : Symb) (txn : Side) (qty : ℕ) :
    Option ℚ × List BrokerCall :=
  ((if b.market_ok then wait_for_fill (b.market_polls.take 15) else none),
   [BrokerCall.place ⟨symbol, txn, qty, OrderType.MARKET, none⟩])

/-- `OrderManager.place_order`: LIMIT order, wait up to 10 polls; on no
fill, cancel (result ignored, `except: pass`) and fall back to a single
MARKET order; append the position dict to the ledger on success.  An
exception anywhere in the `try` block returns `None` with the ledger
untouched.  Returns (result, new ledger, broker calls made). -/
def place_order (b : OrderBroker) (symbol : Symb) (side : Side) (qty : ℕ)
    (price : ℚ) (positions : List Pos) :
    Option Pos × List Pos × List BrokerCall :=
  let limit_req : OrderReq := ⟨symbol, side, qty, OrderType.LIMIT, some price⟩
  if b.limit_ok then
    match wait_for_fill (b.limit_polls.take 10) with
    | some fp =>
        let pos : Pos := ⟨symbol, side, qty, fp, fp, 0⟩
        (some pos, positions ++ [pos], [BrokerCall.place limit_req])
    | none =>
        let m := place_market b symbol side qty
        match m.1 with
        | some fp =>
            let pos : Pos := ⟨symbol, side, qty, fp, fp, 0⟩
            (some pos, positions ++ [pos],
             BrokerCall.place limit_req :: BrokerCall.cancel :: m.2)
        | none =>
            (none, positions,
             BrokerCall.place limit_req :: BrokerCall.cancel :: m.2)
  else
    (none, positions, [BrokerCall.place limit_req])

/-- `OrderManager.close_position`: submit an opposite-side MARKET order
for the leg's full quantity and, if the submission did not raise, remove
the (first occurrence of the) leg from the ledger immediately — no fill
polling.  If `kite.place_order` raises, the ledger is untouched. -/
def close_position (place_ok : Bool) (pos : Pos) (positions : List Pos) :
    List Pos × List OrderReq :=
  let req : OrderReq := ⟨pos.symbol, pos.side.opposite, pos.qty, OrderType.MARKET, none⟩
  if place_ok then
    ((if pos ∈ positions then positions.erase pos else positions), [req])
  else
    (positions, [])

/-! ## `OptionScanner.fetch_and_update_chain` — the strike band

`atm = round(spot / step) * step; strikes = [atm + i * step for i in
range(-8, 9)]` with `step = 50`.  Python's `round` is
round-half-to-even; spot (a float) is a rational. -/

/-- Python `round` on a rational: nearest integer, ties to even. -/
def py_round (q : ℚ) : ℤ :=
  if q - ⌊q⌋ < 1/2 then ⌊q⌋
  else if 1/2 < q - ⌊q⌋ then ⌊q⌋ + 1
  else if Even ⌊q⌋ then ⌊q⌋ else ⌊q⌋ + 1

/-- The at-the-money strike: `round(spot / step) * step`, `step = 50`. -/
def atm_strike (spot : ℚ) : ℤ := py_round (spot / 50) * 50

/-- The strike universe built by `fetch_and_update_chain`:
`[atm + i * step for i in range(-8, 9)]` (indices −8 … 8). -/
def fetch_strikes (spot : ℚ) : List ℤ :=
  (List.range 17).map (fun i : ℕ => atm_strike spot + ((i : ℤ) - 8) * 50)

/-! ## Chain entries, configuration, shared state (state.py) -/

/-- One option-chain entry as built by `fetch_and_update_chain` (the
fields the strategies read; the Greeks bundle fields other than `delta`
and `iv` are not consumed by the strategy logic). -/
structure OptQuote where
  symbol      : Symb
  strike      : ℤ
  otype       : OptType
  expiry      : String
  ltp         : ℚ
  oi          : ℕ
  delta       : ℚ
  iv          : ℚ
  iv_mismatch : ℚ
deriving DecidableEq, Repr

/-- The `state.config` entries the strategies and exit checks read. -/
structure Cfg where
  capital               : ℚ
  target_pct            : ℚ
  sl_pct                : ℚ
  lot_size              : ℕ
  max_rolls             : ℕ
  iv_mismatch_threshold : ℚ
  pre_noon_hedge_pts    : ℤ
  post_noon_hedge_pts   : ℤ
  decay_trigger_pct     : ℚ
  iv_rank_entry         : ℚ
  condor_wing_width     : ℤ
  delta_short_min       : ℚ
  delta_short_max       : ℚ
  adjustment_delta      : ℚ
deriving Repr

inductive StratId
  | A
  | B
deriving DecidableEq, Repr

/-- The slice of `AgentState` that the strategy layer reads and writes. -/
structure AgentState where
  positions       : List Pos
  session_pnl     : ℚ
  roll_count      : ℕ
  active_strategy : Option StratId
  option_chain    : List OptQuote
  iv_rank         : ℚ
  config          : Cfg
deriving Repr

/-- `AgentState.target_hit`: `session_pnl >= capital * target_pct`. -/
def AgentState.target_hit (s : AgentState) : Bool :=
  decide (s.config.capital * s.config.target_pct ≤ s.session_pnl)

/-- `AgentState.sl_hit`: `session_pnl <= -(capital * sl_pct)`. -/
def AgentState.sl_hit (s : AgentState) : Bool :=
  decide (s.session_pnl ≤ -(s.config.capital * s.config.sl_pct))

/-! ## The broker/environment oracle seen by the strategies

At the strategy layer each `OrderManager.place_order` call either
produces a filled position at some average price or fails (`None`);
each `close_position` broker call either succeeds or raises; `kite.quote`
either returns a last price or raises; `fetch_and_update_chain` returns
a chain; the wall clock is before or after noon.  All of this is an
explicit environment. -/

structure Env where
  fill        : Symb → Side → Option ℚ
  closeOk     : Pos → Bool
  quote       : Symb → Option ℚ
  chain       : List OptQuote
  is_pre_noon : Bool

/-- Externally visible actions a tick performs (used to state that a
given tick placed no orders, closed given legs, etc.). -/
inductive Effect
  | refresh_chain
  | close (p : Pos)
  | order (symbol : Symb) (side : Side) (price : ℚ)
deriving DecidableEq, Repr

def Effect.isOrder : Effect → Bool
  | Effect.order _ _ _ => true
  | _ => false

/-- `OrderManager.place_order` as observed by the strategies: on a fill
the position dict is appended to the ledger and returned, otherwise the
ledger is unchanged and `None` is returned. -/
def placeOrderS (env : Env) (symbol : Symb) (side : Side) (qty : ℕ)
    (price : ℚ) (positions : List Pos) :
    Option Pos × List Pos × List Effect :=
  match env.fill symbol side with
  | none => (none, positions, [Effect.order symbol side price])
  | some fp =>
      let pos : Pos := ⟨symbol, side, qty, fp, fp, 0⟩
      (some pos, positions ++ [pos], [Effect.order symbol side price])

/-- `OrderManager.close_position` as observed by the strategies (same
ledger behaviour as `close_position` above, with the submitted close
recorded as an effect). -/
def closePositionS (env : Env) (pos : Pos) (positions : List Pos) :
    List Pos × List Effect :=
  if env.closeOk pos then
    ((if pos ∈ positions then positions.erase pos else positions),
     [Effect.close pos])
  else
    (positions, [])

/-- One iteration of `close_all_positions`' loop body (ledger so far,
effects so far) applied to the next snapshot entry. -/
def closeStep (env : Env) (acc : List Pos × List Effect) (p : Pos) :
    List Pos × List Effect :=
  let r := closePositionS env p acc.1
  (r.1, acc.2 ++ r.2)

/-- `OrderManager.close_all_positions`: iterate `close_position` over a
snapshot of the ledger. -/
def closeAllS (env : Env) (positions : List Pos) : List Pos × List Effect :=
  positions.foldl (closeStep env) (positions, [])

/-- `OptionScanner.hedge_pts`: 400 pts before noon, 300 after (the
configured values). -/
def hedge_pts (env : Env) (cfg : Cfg) : ℤ :=
  if env.is_pre_noon then cfg.pre_noon_hedge_pts else cfg.post_noon_hedge_pts

/-! ## Strategy A — IV credit spread (strategies.py) -/

/-- `self.short_leg = {**sell_opt, "entry": sell_pos["entry"]}`. -/
structure ShortLeg where
  quote : OptQuote
  entry : ℚ
deriving DecidableEq, Repr

/-- Strategy A's run context (`entered`, `short_leg`, `hedge_leg`,
`_scan_counter`). -/
structure CtxA where
  entered      : Bool
  short_leg    : Option ShortLeg
  hedge_leg    : Option Pos
  scan_counter : ℕ
deriving Repr

namespace StrategyA

/-- The entry candidate filter of `StrategyA._enter`:
`iv_mismatch >= threshold and oi > 500_000`, in chain order (the chain
is already sorted most-overpriced-first). -/
def candidatesA (cfg : Cfg) (chain : List OptQuote) : List OptQuote :=
  chain.filter (fun o =>
    decide (cfg.iv_mismatch_threshold ≤ o.iv_mismatch) && decide (500000 < o.oi))

/-- The hedge symbol `_enter` builds: same expiry and kind, strike
offset by the time-of-day hedge distance away from the money. -/
def hedgeSymA (env : Env) (cfg : Cfg) (sell_opt : OptQuote) : Symb :=
  ⟨sell_opt.expiry,
   (if sell_opt.otype = OptType.CE
    then sell_opt.strike + hedge_pts env cfg
    else sell_opt.strike - hedge_pts env cfg),
   sell_opt.otype⟩

/-- `StrategyA._enter`: pick the top candidate, quote the hedge
(`except:` → 5.0), place the short and the hedge sequentially, and mark
the run entered only when both placements succeeded. -/
def enterA (env : Env) (s : AgentState) (c : CtxA) (chain : List OptQuote) :
    AgentState × CtxA × List Effect :=
  match candidatesA s.config chain with
  | [] => (s, c, [])
  | sell_opt :: _ =>
      let hedge_sym := hedgeSymA env s.config sell_opt
      let hedge_ltp := match env.quote hedge_sym with
                       | some p => p
                       | none => 5
      let r1 := placeOrderS env sell_opt.symbol Side.sell s.config.lot_size sell_opt.ltp s.positions
      let r2 := placeOrderS env hedge_sym Side.buy s.config.lot_size hedge_ltp r1.2.1
      let s' := { s with positions := r2.2.1 }
      match r1.1, r2.1 with
      | some sp, some hp =>
          (s', { c with entered := true,
                        short_leg := some ⟨sell_opt, sp.entry⟩,
                        hedge_leg := some hp },
           r1.2.2 ++ r2.2.2)
      | _, _ => (s', c, r1.2.2 ++ r2.2.2)

/-- `StrategyA._roll`: increment the roll counter, close the current
short leg if present in the ledger, quote the strike 50 pts further
OTM (`except:` → abort), sell it, and on success repoint `short_leg`. -/
def rollA (env : Env) (s : AgentState) (c : CtxA) (current : OptQuote) :
    AgentState × CtxA × List Effect :=
  let s1 := { s with roll_count := s.roll_count + 1 }
  let r1 :=
    match c.short_leg with
    | some sl =>
        match s1.positions.find? (fun (p : Pos) => p.symbol == sl.quote.symbol) with
        | some sp => closePositionS env sp s1.positions
        | none => (s1.positions, [])
    | none => (s1.positions, [])
  let direction : ℤ := if current.otype = OptType.CE then 1 else -1
  let new_strike := current.strike + 50 * direction
  let new_symbol : Symb := ⟨current.expiry, new_strike, current.otype⟩
  match env.quote new_symbol with
  | none => ({ s1 with positions := r1.1 }, c, r1.2)
  | some ltp =>
      let r2 := placeOrderS env new_symbol Side.sell s.config.lot_size ltp r1.1
      match r2.1 with
      | some np =>
          let nl : ShortLeg :=
            ⟨{ current with strike := new_strike, symbol := new_symbol }, np.entry⟩
          ({ s1 with positions := r2.2.1 },
           { c with short_leg := some nl },
           r1.2 ++ r2.2.2)
      | none => ({ s1 with positions := r2.2.1 }, c, r1.2 ++ r2.2.2)

/-- `StrategyA._monitor_positions`: look the short leg up in the chain;
on ≥50% premium decay close everything and reset; on a delta breach
with roll budget remaining, roll. -/
def monitorA (env : Env) (s : AgentState) (c : CtxA) :
    AgentState × CtxA × List Effect :=
  match c.short_leg with
  | none => (s, c, [])
  | some sl =>
      match s.option_chain.find? (fun (o : OptQuote) => o.symbol == sl.quote.symbol) with
      | none => (s, c, [])
      | some current =>
          let decay_pct : ℚ :=
            if 0 < sl.entry then 1 - current.ltp / sl.entry else 0
          if s.config.decay_trigger_pct ≤ decay_pct then
            let r := closeAllS env s.positions
            ({ s with positions := r.1, active_strategy := none, roll_count := 0 },
             { c with entered := false, short_leg := none, hedge_leg := none },
             r.2)
          else if s.config.adjustment_delta < |current.delta| ∧
                  s.roll_count < s.config.max_rolls then
            rollA env s c current
          else (s, c, [])

/-- `StrategyA.tick`: refresh the chain every 60th tick, then exit
checks (target, stop-loss), then entry when flat, else monitoring. -/
def tick (env : Env) (s : AgentState) (c : CtxA) :
    AgentState × CtxA × List Effect :=
  let c1 := { c with scan_counter := c.scan_counter + 1 }
  let sr := if c1.scan_counter % 60 = 0
            then ({ s with option_chain := env.chain }, [Effect.refresh_chain])
            else (s, ([] : List Effect))
  let s1 := sr.1
  if s1.target_hit then
    let r := closeAllS env s1.positions
    ({ s1 with positions := r.1, active_strategy := none, roll_count := 0 },
     { c1 with entered := false, short_leg := none, hedge_leg := none },
     sr.2 ++ r.2)
  else if s1.sl_hit then
    let r := closeAllS env s1.positions
    ({ s1 with positions := r.1, active_strategy := none, roll_count := 0 },
     { c1 with entered := false, short_leg := none, hedge_leg := none },
     sr.2 ++ r.2)
  else if ¬ c1.entered ∧ s1.positions = [] then
    let sc := match s1.option_chain with
              | [] => ({ s1 with option_chain := env.chain },
                       env.chain, [Effect.refresh_chain])
              | q :: qs => (s1, q :: qs, ([] : List Effect))
    let r := enterA env sc.1 c1 sc.2.1
    (r.1, r.2.1, sr.2 ++ sc.2.2 ++ r.2.2)
  else if c1.entered ∧ c1.short_leg.isSome then
    let r := monitorA env s1 c1
    (r.1, r.2.1, sr.2 ++ r.2.2)
  else (s1, c1, sr.2)

end StrategyA

/-! ## Strategy B — iron condor (strategies.py) -/

/-- Strategy B's run context (`entered`, `short_ce`, `short_pe`,
`_scan_counter`). -/
structure CtxB where
  entered      : Bool
  short_ce     : Option OptQuote
  short_pe     : Option OptQuote
  scan_counter : ℕ
deriving Repr

namespace StrategyB

/-- `StrategyB._enter`'s candidate filters: contracts of the given kind
whose delta magnitude lies in the configured band. -/
def candB (cfg : Cfg) (ot : OptType) (chain : List OptQuote) : List OptQuote :=
  chain.filter (fun o =>
    decide (o.otype = ot) &&
    decide (cfg.delta_short_min ≤ |o.delta|) &&
    decide (|o.delta| ≤ cfg.delta_short_max))

/-- `StrategyB._enter`: pick the first CE and PE candidates, build the
two protective long symbols one wing-width further out, quote them (a
raise anywhere sets both long prices to 5.0), submit all four legs
sequentially with the results ignored, and unconditionally mark the run
entered with `short_ce`/`short_pe` recorded. -/
def enterB (env : Env) (s : AgentState) (c : CtxB) (chain : List OptQuote) :
    AgentState × CtxB × List Effect :=
  let lot := s.config.lot_size
  let wing := s.config.condor_wing_width
  match candB s.config OptType.CE chain, candB s.config OptType.PE chain with
  | sc :: _, sp :: _ =>
      let lc_sym : Symb := ⟨sc.expiry, sc.strike + wing, OptType.CE⟩
      let lp_sym : Symb := ⟨sc.expiry, sp.strike - wing, OptType.PE⟩
      let ltps := match env.quote lc_sym, env.quote lp_sym with
                  | some a, some b => (a, b)
                  | _, _ => ((5 : ℚ), (5 : ℚ))
      let r1 := placeOrderS env sc.symbol Side.sell lot sc.ltp s.positions
      let r2 := placeOrderS env lc_sym Side.buy lot ltps.1 r1.2.1
      let r3 := placeOrderS env sp.symbol Side.sell lot sp.ltp r2.2.1
      let r4 := placeOrderS env lp_sym Side.buy lot ltps.2 r3.2.1
      ({ s with positions := r4.2.1 },
       { c with entered := true, short_ce := some sc, short_pe := some sp },
       r1.2.2 ++ r2.2.2 ++ r3.2.2 ++ r4.2.2)
  | _, _ => (s, c, [])

/-- `StrategyB._adjust_wing`: increment the shared roll counter, close
the breached short leg if present, quote the strike 50 pts further out
(`except:` → abort), sell it, and on success repoint the corresponding
short-leg reference. -/
def adjust_wing (env : Env) (s : AgentState) (c : CtxB)
    (current : OptQuote) (ot : OptType) :
    AgentState × CtxB × List Effect :=
  let s1 := { s with roll_count := s.roll_count + 1 }
  let r1 :=
    match s1.positions.find? (fun (p : Pos) => p.symbol == current.symbol) with
    | some pos => closePositionS env pos s1.positions
    | none => (s1.positions, [])
  let direction : ℤ := if ot = OptType.CE then 1 else -1
  let new_strike := current.strike + 50 * direction
  let new_symbol : Symb := ⟨current.expiry, new_strike, ot⟩
  match env.quote new_symbol with
  | none => ({ s1 with positions := r1.1 }, c, r1.2)
  | some ltp =>
      let r2 := placeOrderS env new_symbol Side.sell s.config.lot_size ltp r1.1
      match r2.1 with
      | some _ =>
          let nq : OptQuote := { current with strike := new_strike, symbol := new_symbol }
          ({ s1 with positions := r2.2.1 },
           (if ot = OptType.CE then { c with short_ce := some nq }
            else { c with short_pe := some nq }),
           r1.2 ++ r2.2.2)
      | none => ({ s1 with positions := r2.2.1 }, c, r1.2 ++ r2.2.2)

/-- One iteration of `StrategyB._monitor`'s loop body for a given short
leg: look it up in the chain; on a delta breach with roll budget left,
adjust the wing. -/
def monitorStep (env : Env) (s : AgentState) (c : CtxB)
    (short : Option OptQuote) (ot : OptType) :
    AgentState × CtxB × List Effect :=
  match short with
  | none => (s, c, [])
  | some sh =>
      match s.option_chain.find? (fun (o : OptQuote) => o.symbol == sh.symbol) with
      | none => (s, c, [])
      | some current =>
          if s.config.adjustment_delta < |current.delta| then
            if s.roll_count < s.config.max_rolls then
              adjust_wing env s c current ot
            else (s, c, [])
          else (s, c, [])

/-- `StrategyB._monitor`: the CE short then the PE short, sequentially
(the second iteration sees the state the first produced). -/
def monitorB (env : Env) (s : AgentState) (c : CtxB) :
    AgentState × CtxB × List Effect :=
  let r1 := monitorStep env s c c.short_ce OptType.CE
  let r2 := monitorStep env r1.1 r1.2.1 r1.2.1.short_pe OptType.PE
  (r2.1, r2.2.1, r1.2.2 ++ r2.2.2)

/-- `StrategyB.tick`: refresh the chain every 60th tick, then exit
checks (target, stop-loss), then the IV-rank-gated entry when not
entered, else monitoring. -/
def tick (env : Env) (s : AgentState) (c : CtxB) :
    AgentState × CtxB × List Effect :=
  let c1 := { c with scan_counter := c.scan_counter + 1 }
  let sr := if c1.scan_counter % 60 = 0
            then ({ s with option_chain := env.chain }, [Effect.refresh_chain])
            else (s, ([] : List Effect))
  let s1 := sr.1
  if s1.target_hit then
    let r := closeAllS env s1.positions
    ({ s1 with positions := r.1, active_strategy := none, roll_count := 0 },
     { c1 with entered := false, short_ce := none, short_pe := none },
     sr.2 ++ r.2)
  else if s1.sl_hit then
    let r := closeAllS env s1.positions
    ({ s1 with positions := r.1, active_strategy := none, roll_count := 0 },
     { c1 with entered := false, short_ce := none, short_pe := none },
     sr.2 ++ r.2)
  else if ¬ c1.entered then
    if s1.config.iv_rank_entry ≤ s1.iv_rank then
      let sc := match s1.option_chain with
                | [] => ({ s1 with option_chain := env.chain },
                         env.chain, [Effect.refresh_chain])
                | q :: qs => (s1, q :: qs, ([] : List Effect))
      let r := enterB env sc.1 c1 sc.2.1
      (r.1, r.2.1, sr.2 ++ sc.2.2 ++ r.2.2)
    else (s1, c1, sr.2)
  else
    let r := monitorB env s1 c1
    (r.1, r.2.1, sr.2 ++ r.2.2)

end StrategyB

/-! ## `BSGreeks` (greeks.py), over the reals

`scipy.stats.norm.cdf/pdf` are the standard normal CDF and PDF; the CDF
is expressed through the error function
`erf x = 2/√π · ∫ t in 0..x, exp (−t²)`. -/

noncomputable def erf0 (x : ℝ) : ℝ :=
  (2 / Real.sqrt Real.pi) * ∫ t in (0:ℝ)..x, Real.exp (-(t^2))

namespace BSGreeks

/-- `scipy.stats.norm.cdf`. -/
noncomputable def norm_cdf (x : ℝ) : ℝ := (1 + erf0 (x / Real.sqrt 2)) / 2

/-- `scipy.stats.norm.pdf`. -/
noncomputable def norm_pdf (x : ℝ) : ℝ :=
  Real.exp (-(x^2) / 2) / Real.sqrt (2 * Real.pi)

/-- `BSGreeks.d1`. -/
noncomputable def d1 (S K T r sigma : ℝ) : ℝ :=
  (Real.log (S / K) + (r + sigma^2 / 2) * T) / (sigma * Real.sqrt T)

/-- `BSGreeks.d2`. -/
noncomputable def d2 (S K T r sigma : ℝ) : ℝ :=
  d1 S K T r sigma - sigma * Real.sqrt T

/-- `BSGreeks.price` (`opt_type == "CE"` is the call branch, anything
else prices a put). -/
noncomputable def price (S K T r sigma : ℝ) (opt_type : String) : ℝ :=
  if opt_type = "CE" then
    S * norm_cdf (d1 S K T r sigma)
      - K * Real.exp (-(r * T)) * norm_cdf (d2 S K T r sigma)
  else
    K * Real.exp (-(r * T)) * norm_cdf (-(d2 S K T r sigma))
      - S * norm_cdf (-(d1 S K T r sigma))

/-- `BSGreeks.delta`. -/
noncomputable def delta (S K T r sigma : ℝ) (opt_type : String) : ℝ :=
  if opt_type = "CE" then norm_cdf (d1 S K T r sigma)
  else norm_cdf (d1 S K T r sigma) - 1

/-- `BSGreeks.gamma`. -/
noncomputable def gamma (S K T r sigma : ℝ) : ℝ :=
  norm_pdf (d1 S K T r sigma) / (S * sigma * Real.sqrt T)

/-- `BSGreeks.theta`. -/
noncomputable def theta (S K T r sigma : ℝ) (opt_type : String) : ℝ :=
  let t1 := -(S * norm_pdf (d1 S K T r sigma) * sigma) / (2 * Real.sqrt T)
  if opt_type = "CE" then
    (t1 - r * K * Real.exp (-(r * T)) * norm_cdf (d2 S K T r sigma)) / 365
  else
    (t1 + r * K * Real.exp (-(r * T)) * norm_cdf (-(d2 S K T r sigma))) / 365

/-- `BSGreeks.vega`. -/
noncomputable def vega (S K T r sigma : ℝ) : ℝ :=
  S * norm_pdf (d1 S K T r sigma) * Real.sqrt T / 100

/-- One pass of the Newton-Raphson loop body of `implied_volatility`,
on the pair (current sigma, loop already broken out of).  The `break`s
become a sticky stop flag: the small-vega guard stops at the current
sigma; otherwise the update is applied, clamped into [0.001, 5.0], and
the tolerance test (`tol = 1e-5`) decides whether to stop.  (Over the
reals none of the priced expressions raises, so the `except: break`
never fires.) -/
noncomputable def iv_step (market_price S K T r : ℝ) (opt_type : String)
    (st : ℝ × Bool) : ℝ × Bool :=
  if st.2 then st
  else
    let sigma := st.1
    let p := price S K T r sigma opt_type
    let v := vega S K T r sigma * 100
    if |v| < 1e-10 then (sigma, true)
    else
      let sigma' := max 0.001 (min (sigma - (p - market_price) / v) 5.0)
      if |price S K T r sigma' opt_type - market_price| < 1e-5 then (sigma', true)
      else (sigma', false)

/-- `n` passes of the loop body (`for _ in range(max_iter)`). -/
noncomputable def iv_iter (market_price S K T r : ℝ) (opt_type : String) :
    ℕ → ℝ × Bool → ℝ × Bool
  | 0, st => st
  | n + 1, st => iv_iter market_price S K T r opt_type n
      (iv_step market_price S K T r opt_type st)

/-- `BSGreeks.implied_volatility` with the default `tol = 1e-5`,
`max_iter = 200`: non-positive market price returns `0.0`; otherwise
Newton-Raphson from the initial guess `0.20`. -/
noncomputable def implied_volatility (market_price S K T r : ℝ)
    (opt_type : String) : ℝ :=
  if market_price ≤ 0 then 0
  else (iv_iter market_price S K T r opt_type 200 (0.20, false)).1

/-- Python's `round(x, n)` at ideal real precision: scale by `10^n`,
round half to even, unscale. -/
noncomputable def round_half_even (x : ℝ) : ℤ :=
  if x - ⌊x⌋ < 1/2 then ⌊x⌋
  else if 1/2 < x - ⌊x⌋ then ⌊x⌋ + 1
  else if Even ⌊x⌋ then ⌊x⌋ else ⌊x⌋ + 1

noncomputable def py_round_r (n : ℕ) (x : ℝ) : ℝ :=
  (round_half_even (x * 10 ^ n) : ℝ) / 10 ^ n

/-- The Greeks dict returned by `full_greeks`. -/
structure GreeksOut where
  iv         : ℝ
  delta      : ℝ
  gamma      : ℝ
  theta      : ℝ
  vega       : ℝ
  fair_price : ℝ

/-- The all-zero dict `full_greeks` returns when the solved volatility
is ≤ 0. -/
def zeroGreeks : GreeksOut := ⟨0, 0, 0, 0, 0, 0⟩

/-- The main branch of `full_greeks`, at a given solved volatility. -/
noncomputable def greeksBundle (S K T r iv : ℝ) (opt_type : String) : GreeksOut :=
  ⟨py_round_r 2 (iv * 100),
   py_round_r 4 (delta S K T r iv opt_type),
   py_round_r 5 (gamma S K T r iv),
   py_round_r 2 (theta S K T r iv opt_type),
   py_round_r 4 (vega S K T r iv),
   py_round_r 2 (price S K T r iv opt_type)⟩

/-- `BSGreeks.full_greeks`. -/
noncomputable def full_greeks (S K T r market_price : ℝ)
    (opt_type : String) : GreeksOut :=
  let iv := implied_volatility market_price S K T r opt_type
  if iv ≤ 0 then zeroGreeks
  else greeksBundle S K T r iv opt_type

end BSGreeks

/-! ## Helper lemmas -/

/-- The error function is odd (substitution `t ↦ −t` in the integral). -/
lemma erf0_neg (x : ℝ) : erf0 (-x) = - erf0 x := by
  unfold erf0
  have h : (∫ t in (0:ℝ)..(-x), Real.exp (-(t^2)))
      = ∫ t in (0:ℝ)..(-x), (fun u : ℝ => Real.exp (-(u^2))) (-t) := by
    congr 1
    ext t
    ring_nf
  rw [h, intervalIntegral.integral_comp_neg (fun u : ℝ => Real.exp (-(u^2))),
    neg_neg, neg_zero, intervalIntegral.integral_symm]
  ring

/-- Reflection identity of the standard normal CDF. -/
lemma norm_cdf_neg (x : ℝ) : BSGreeks.norm_cdf (-x) = 1 - BSGreeks.norm_cdf x := by
  unfold BSGreeks.norm_cdf
  rw [neg_div, erf0_neg]
  ring

lemma norm_pdf_nonneg (x : ℝ) : 0 ≤ BSGreeks.norm_pdf x :=
  div_nonneg (Real.exp_pos _).le (Real.sqrt_nonneg _)

lemma norm_pdf_le_half (x : ℝ) : BSGreeks.norm_pdf x ≤ 1 / 2 := by
  unfold BSGreeks.norm_pdf
  have h1 : Real.exp (-(x^2) / 2) ≤ 1 := by
    rw [Real.exp_le_one_iff]
    nlinarith [sq_nonneg x]
  have h2 : (2:ℝ) ≤ Real.sqrt (2 * Real.pi) := by
    have h4 : (2:ℝ) = Real.sqrt 4 := by
      rw [show (4:ℝ) = 2^2 by norm_num, Real.sqrt_sq (by norm_num : (0:ℝ) ≤ 2)]
    rw [h4]
    exact Real.sqrt_le_sqrt (by nlinarith [Real.pi_gt_three])
  calc Real.exp (-(x^2) / 2) / Real.sqrt (2 * Real.pi)
      ≤ 1 / Real.sqrt (2 * Real.pi) := by
        apply div_le_div_of_nonneg_right h1 ?_ |>.trans_eq rfl
        linarith
    _ ≤ 1 / 2 := by
        apply one_div_le_one_div_of_le <;> linarith

/-- A poll trace that never reaches a terminal status yields no fill. -/
lemma wait_for_fill_pending (l : List PollOutcome)
    (h : ∀ o ∈ l, o = PollOutcome.pending) : wait_for_fill l = none := by
  induction l with
  | nil => rfl
  | cons a t ih =>
      have ha := h a (by simp)
      subst ha
      simpa [wait_for_fill] using ih fun o ho => h o (by simp [ho])

/-! ## C4 — put-call parity -/

/-- C4: for all valid `S, K, T, r, σ > 0` the Black-Scholes pricer of
`BSGreeks.price` satisfies put-call parity
`price(…,"PE") = price(…,"CE") − S + K·e^(−rT)`, exactly over real
arithmetic. -/
theorem C4_put_call_parity (S K T r sigma : ℝ)
    (hS : 0 < S) (hK : 0 < K) (hT : 0 < T) (hr : 0 < r) (hs : 0 < sigma) :
    BSGreeks.price S K T r sigma "PE"
      = BSGreeks.price S K T r sigma "CE" - S + K * Real.exp (-(r * T)) := by
  have h1 := norm_cdf_neg (BSGreeks.d1 S K T r sigma)
  have h2 := norm_cdf_neg (BSGreeks.d2 S K T r sigma)
  unfold BSGreeks.price
  rw [if_neg (by decide : ¬("PE":String) = "CE"), if_pos rfl, h1, h2]
  ring

theorem C4_put_call_parity_witness :
    BSGreeks.price 1 1 1 1 1 "PE"
      = BSGreeks.price 1 1 1 1 1 "CE" - 1 + 1 * Real.exp (-(1 * 1)) :=
  C4_put_call_parity 1 1 1 1 1 one_pos one_pos one_pos one_pos one_pos

/-! ## C6 — all-zero Greeks for non-positive market price -/

/-- C6: for every market price ≤ 0 and any option kind, `full_greeks`
returns the all-zero bundle (the IV solver returns 0 on a non-positive
price, and `full_greeks` maps any solved volatility ≤ 0 to zeros). -/
theorem C6_full_greeks_zero (S K T r market_price : ℝ) (opt_type : String)
    (h : market_price ≤ 0) :
    BSGreeks.full_greeks S K T r market_price opt_type = BSGreeks.zeroGreeks := by
  unfold BSGreeks.full_greeks BSGreeks.implied_volatility
  simp [h]

theorem C6_full_greeks_zero_witness :
    BSGreeks.full_greeks 1 1 1 1 0 "CE" = BSGreeks.zeroGreeks ∧
    BSGreeks.full_greeks 1 1 1 1 0 "PE" = BSGreeks.zeroGreeks :=
  ⟨C6_full_greeks_zero 1 1 1 1 0 "CE" le_rfl,
   C6_full_greeks_zero 1 1 1 1 0 "PE" le_rfl⟩

/-! ## C9 — the strike band -/

lemma fetch_strikes_length (spot : ℚ) : (fetch_strikes spot).length = 17 := by
  rw [fetch_strikes, List.length_map, List.length_range]

/-- Python `round` lands within half a unit of its argument. -/
lemma py_round_near (q : ℚ) : |q - (py_round q : ℚ)| ≤ 1 / 2 := by
  unfold py_round
  have h0 : ((⌊q⌋ : ℤ) : ℚ) ≤ q := Int.floor_le q
  have h1 : q < ⌊q⌋ + 1 := Int.lt_floor_add_one q
  split_ifs with ha hb hc <;> rw [abs_le] <;> constructor <;> push_cast <;>
    push_cast at ha h1 h0 <;> linarith

/-- C9 counterexample: the generated band has 17 strikes, not the 16 of
the in-code comment (`# 16 strikes around ATM`): `range(-8, 9)` yields
8 strikes on each side of the at-the-money strike *plus* the ATM strike
itself.  Concretely, at spot 20012 the universe has 17 elements. -/
theorem C9_band_count_counterexample :
    (fetch_strikes 20012).length = 17 ∧ ¬ ((fetch_strikes 20012).length = 16) := by
  refine ⟨fetch_strikes_length 20012, ?_⟩
  rw [fetch_strikes_length]
  norm_num

/-- C9 (amended): for every spot, the strike universe is exactly
`{atm + i·50 : −8 ≤ i ≤ 8}` where `atm` is the spot rounded to the
nearest 50 (within 25 points of spot) — a band symmetric about the ATM
strike with 8 strikes on each side, 17 strikes in total (one more than
the code comment's "16 strikes around ATM"). -/
theorem C9_strike_band (spot : ℚ) :
    (fetch_strikes spot).length = 17 ∧
    (∀ k : ℤ, k ∈ fetch_strikes spot ↔
       ∃ i : ℤ, -8 ≤ i ∧ i ≤ 8 ∧ k = atm_strike spot + i * 50) ∧
    |spot - (atm_strike spot : ℚ)| ≤ 25 := by
  refine ⟨fetch_strikes_length spot, ?_, ?_⟩
  · intro k
    simp only [fetch_strikes, List.mem_map, List.mem_range]
    constructor
    · rintro ⟨i, hi, rfl⟩
      exact ⟨(i : ℤ) - 8, by omega, by omega, by ring⟩
    · rintro ⟨i, hgelb, hle, rfl⟩
      have hn : (i + 8).toNat < 17 := by omega
      refine ⟨(i + 8).toNat, hn, ?_⟩
      have hcast : (((i + 8).toNat : ℤ)) = i + 8 := Int.toNat_of_nonneg (by omega)
      rw [hcast]
      ring
  · have h := py_round_near (spot / 50)
    unfold atm_strike
    have hrw : spot - ((py_round (spot / 50) * 50 : ℤ) : ℚ)
        = 50 * (spot / 50 - (py_round (spot / 50) : ℚ)) := by
      push_cast
      ring
    rw [hrw, abs_mul, abs_of_nonneg (by norm_num : (0:ℚ) ≤ 50)]
    nlinarith [abs_nonneg (spot / 50 - (py_round (spot / 50) : ℚ))]

/-! ## C7 — closing one leg -/

/-- C7: `close_position` submits a single opposite-side MARKET order for
the leg's full quantity and removes exactly that leg (one occurrence)
from the ledger immediately on successful submission, leaving every
other leg's multiplicity unchanged; if the broker call raises, the
ledger is untouched and no order stands. -/
theorem C7_close_position (ok : Bool) (pos : Pos) (ps : List Pos)
    (hmem : pos ∈ ps) :
    (ok = true →
       close_position ok pos ps
         = (ps.erase pos,
            [⟨pos.symbol, pos.side.opposite, pos.qty, OrderType.MARKET, none⟩]) ∧
       (close_position ok pos ps).1.count pos + 1 = ps.count pos ∧
       (∀ q : Pos, q ≠ pos → (close_position ok pos ps).1.count q = ps.count q)) ∧
    (ok = false → close_position ok pos ps = (ps, [])) := by
  constructor
  · intro hok
    subst hok
    refine ⟨by simp [close_position, hmem], ?_, ?_⟩
    · simp only [close_position, if_pos, hmem, if_true, List.count_erase_self]
      have : 0 < ps.count pos := List.count_pos_iff.mpr hmem
      omega
    · intro q hq
      simp only [close_position, if_pos, hmem, if_true]
      exact List.count_erase_of_ne hq ps
  · intro hok
    subst hok
    simp [close_position]

theorem C7_close_position_witness :
    let p : Pos := ⟨⟨"25SEP25", 20000, OptType.CE⟩, Side.buy, 50, 10, 10, 0⟩
    close_position true p [p]
      = ([], [⟨p.symbol, Side.sell, p.qty, OrderType.MARKET, none⟩]) := by
  intro p
  exact ((C7_close_position true p [p] (by simp)).1 rfl).1

/-! ## C1 — the order placement protocol -/

def symEx : Symb := ⟨"25SEP25", 20000, OptType.CE⟩

/-- C1: for every `place_order` run whose LIMIT placement goes through:
(a) a LIMIT fill within the 10-poll window returns a position whose
entry is the order's average fill price and appends exactly that one
leg to the ledger (one broker call, no MARKET order); (b) if no poll in
the 10-poll window ever shows a terminal status, the LIMIT order is
cancelled and exactly one MARKET order is attempted (itself polled over
the first 15 observations of its trace); (c) if in addition the MARKET
fallback yields no fill, the call returns `None` and the ledger is
unchanged. -/
theorem C1_place_order_protocol (b : OrderBroker) (symbol : Symb)
    (side : Side) (qty : ℕ) (price : ℚ) (ps : List Pos)
    (hok : b.limit_ok = true) :
    (∀ p : ℚ, wait_for_fill (b.limit_polls.take 10) = some p →
       place_order b symbol side qty price ps
         = (some ⟨symbol, side, qty, p, p, 0⟩,
            ps ++ [⟨symbol, side, qty, p, p, 0⟩],
            [BrokerCall.place ⟨symbol, side, qty, OrderType.LIMIT, some price⟩])) ∧
    ((∀ o ∈ b.limit_polls.take 10, o = PollOutcome.pending) →
       (place_order b symbol side qty price ps).2.2
         = [BrokerCall.place ⟨symbol, side, qty, OrderType.LIMIT, some price⟩,
            BrokerCall.cancel,
            BrokerCall.place ⟨symbol, side, qty, OrderType.MARKET, none⟩] ∧
       ((if b.market_ok then wait_for_fill (b.market_polls.take 15) else none)
           = none →
          (place_order b symbol side qty price ps).1 = none ∧
          (place_order b symbol side qty price ps).2.1 = ps)) := by
  constructor
  · intro p hp
    unfold place_order
    rw [hok, if_pos rfl, hp]
  · intro hpend
    have hnone : wait_for_fill (b.limit_polls.take 10) = none :=
      wait_for_fill_pending _ hpend
    unfold place_order place_market
    rw [hok, if_pos rfl, hnone]
    cases hm : (if b.market_ok then wait_for_fill (b.market_polls.take 15)
        else none) with
    | none => exact ⟨rfl, fun _ => ⟨rfl, rfl⟩⟩
    | some fp => exact ⟨rfl, fun hc => by simp at hc⟩

theorem C1_place_order_protocol_witness :
    place_order ⟨true, [PollOutcome.complete 7], true, []⟩ symEx Side.buy 50 10 []
      = (some ⟨symEx, Side.buy, 50, 7, 7, 0⟩,
         [⟨symEx, Side.buy, 50, 7, 7, 0⟩],
         [BrokerCall.place ⟨symEx, Side.buy, 50, OrderType.LIMIT, some 10⟩]) :=
  (C1_place_order_protocol ⟨true, [PollOutcome.complete 7], true, []⟩
    symEx Side.buy 50 10 [] rfl).1 7 rfl

/-! ## C10 / C5 — the Newton-Raphson solver -/

namespace BSGreeks

/-- Each Newton pass keeps sigma inside the clamp interval. -/
lemma iv_step_mem (market_price S K T r : ℝ) (opt_type : String)
    (st : ℝ × Bool) (h : st.1 ∈ Set.Icc (0.001 : ℝ) 5) :
    (iv_step market_price S K T r opt_type st).1 ∈ Set.Icc (0.001 : ℝ) 5 := by
  unfold iv_step
  by_cases hb : st.2
  · rw [if_pos hb]
    exact h
  · rw [if_neg hb]
    dsimp only
    split_ifs with h1 h2
    · exact h
    · exact ⟨le_max_left _ _,
        max_le (by norm_num) ((min_le_right _ _).trans_eq (by norm_num))⟩
    · exact ⟨le_max_left _ _,
        max_le (by norm_num) ((min_le_right _ _).trans_eq (by norm_num))⟩

lemma iv_iter_mem (market_price S K T r : ℝ) (opt_type : String) :
    ∀ (n : ℕ) (st : ℝ × Bool), st.1 ∈ Set.Icc (0.001 : ℝ) 5 →
      (iv_iter market_price S K T r opt_type n st).1 ∈ Set.Icc (0.001 : ℝ) 5 := by
  intro n
  induction n with
  | zero => intro st h; exact h
  | succ m ih =>
      intro st h
      exact ih _ (iv_step_mem market_price S K T r opt_type st h)

lemma iv_iter_succ (market_price S K T r : ℝ) (opt_type : String)
    (n : ℕ) (st : ℝ × Bool) :
    iv_iter market_price S K T r opt_type (n + 1) st
      = iv_iter market_price S K T r opt_type n
          (iv_step market_price S K T r opt_type st) := rfl

/-- After a `break` the loop state never changes again. -/
lemma iv_iter_stopped (market_price S K T r : ℝ) (opt_type : String)
    (sigma : ℝ) : ∀ n : ℕ,
    iv_iter market_price S K T r opt_type n (sigma, true) = (sigma, true) := by
  intro n
  induction n with
  | zero => rfl
  | succ m ih =>
      rw [iv_iter_succ]
      have hs : iv_step market_price S K T r opt_type (sigma, true)
          = (sigma, true) := by
        unfold iv_step
        rfl
      rw [hs, ih]

/-- When the (unscaled) vega at the initial guess 0.20 is below the
`1e-10` guard, the very first Newton pass breaks out of the loop and the
solver returns the initial guess (or 0.0 for a non-positive price). -/
lemma implied_volatility_small_vega (market_price S K T r : ℝ)
    (opt_type : String) (h : |vega S K T r 0.20 * 100| < 1e-10) :
    implied_volatility market_price S K T r opt_type
      = if market_price ≤ 0 then 0 else 0.20 := by
  unfold implied_volatility
  split_ifs with hm
  · rfl
  · have hstep : iv_step market_price S K T r opt_type (0.20, false)
        = (0.20, true) := by
      unfold iv_step
      simp only [Bool.false_eq_true, if_false]
      rw [if_pos h]
    rw [show (200 : ℕ) = 199 + 1 from rfl, iv_iter_succ, hstep,
      iv_iter_stopped]

end BSGreeks

/-- C10: for every positive market price the solver's result lies in the
clamp interval [0.001, 5.0] (the initial guess 0.20 is inside and every
Newton update is clamped back in), so the solved volatility is strictly
positive and `full_greeks` takes its main branch, never the all-zero
one. -/
theorem C10_iv_in_clamp_range (S K T r market_price : ℝ) (opt_type : String)
    (h : 0 < market_price) :
    BSGreeks.implied_volatility market_price S K T r opt_type
      ∈ Set.Icc (0.001 : ℝ) 5 ∧
    BSGreeks.full_greeks S K T r market_price opt_type
      = BSGreeks.greeksBundle S K T r
          (BSGreeks.implied_volatility market_price S K T r opt_type) opt_type := by
  have hm : ¬ market_price ≤ 0 := not_le.mpr h
  have hiv : BSGreeks.implied_volatility market_price S K T r opt_type
      ∈ Set.Icc (0.001 : ℝ) 5 := by
    unfold BSGreeks.implied_volatility
    rw [if_neg hm]
    exact BSGreeks.iv_iter_mem market_price S K T r opt_type 200 (0.20, false)
      (by constructor <;> norm_num)
  refine ⟨hiv, ?_⟩
  unfold BSGreeks.full_greeks
  rw [if_neg (not_le.mpr (lt_of_lt_of_le (by norm_num) hiv.1))]

theorem C10_iv_in_clamp_range_witness :
    BSGreeks.implied_volatility 1 1 1 1 1 "CE" ∈ Set.Icc (0.001 : ℝ) 5 ∧
    BSGreeks.full_greeks 1 1 1 1 1 "CE"
      = BSGreeks.greeksBundle 1 1 1 1
          (BSGreeks.implied_volatility 1 1 1 1 1 "CE") "CE" :=
  C10_iv_in_clamp_range 1 1 1 1 1 "CE" one_pos

/-- C5 counterexample: with valid inputs `S = K = r = 1`,
`T = 1e-30 > 0` and the admissible `σ* = 1`, the unscaled vega at the
initial guess 0.20 is below the `1e-10` guard (it is at most
`(1/2)·√(1e-30) = 5e-16`), so the solver breaks out of its loop on the
first pass and returns 0.20 (or 0.0 if the computed market price is not
positive) — in either case more than `1e-3` away from `σ* = 1`.  The
round-trip law as stated is therefore false. -/
theorem C5_roundtrip_counterexample :
    ¬ (|BSGreeks.implied_volatility
          (BSGreeks.price 1 1 1e-30 1 1 "CE") 1 1 1e-30 1 "CE" - 1| ≤ 1e-3) := by
  have hsqrt : Real.sqrt 1e-30 = 1e-15 := by
    rw [show (1e-30 : ℝ) = (1e-15) ^ 2 by norm_num,
      Real.sqrt_sq (by norm_num : (0:ℝ) ≤ 1e-15)]
  have hv : |BSGreeks.vega 1 1 1e-30 1 0.20 * 100| < 1e-10 := by
    unfold BSGreeks.vega
    rw [hsqrt]
    have hle := norm_pdf_le_half (BSGreeks.d1 1 1 1e-30 1 0.20)
    have hge := norm_pdf_nonneg (BSGreeks.d1 1 1 1e-30 1 0.20)
    rw [abs_of_nonneg (by nlinarith)]
    nlinarith
  have h := BSGreeks.implied_volatility_small_vega
    (BSGreeks.price 1 1 1e-30 1 1 "CE") 1 1 1e-30 1 "CE" hv
  rw [h]
  intro hc
  rw [abs_le] at hc
  split_ifs at hc with hm
  · norm_num at hc
  · norm_num at hc

/-- C5 (amended): the round-trip law does not hold for all valid
inputs.  Whenever the unscaled vega at the initial guess 0.20 falls
below the solver's `1e-10` guard, `implied_volatility` ignores the
market price's provenance entirely and returns the initial guess 0.20
(0.0 for a non-positive price), so a σ* used to manufacture the price is
recovered only if it happens to lie within the tolerance of those two
values; the round-trip recovery within 1e-3 is only a convergence
property of non-degenerate inputs, not an invariant of the code. -/
theorem C5_degenerate_solver_returns_guess (S K T r market_price : ℝ)
    (opt_type : String) (h : |BSGreeks.vega S K T r 0.20 * 100| < 1e-10) :
    BSGreeks.implied_volatility market_price S K T r opt_type
      = if market_price ≤ 0 then 0 else 0.20 :=
  BSGreeks.implied_volatility_small_vega market_price S K T r opt_type h

theorem C5_degenerate_solver_returns_guess_witness :
    |BSGreeks.vega 1 1 0 1 0.20 * 100| < 1e-10 ∧
    BSGreeks.implied_volatility 1 1 1 0 1 "CE"
      = if (1:ℝ) ≤ 0 then 0 else 0.20 := by
  have h : |BSGreeks.vega 1 1 0 1 0.20 * 100| < 1e-10 := by
    unfold BSGreeks.vega
    rw [Real.sqrt_zero]
    norm_num
  exact ⟨h, C5_degenerate_solver_returns_guess 1 1 0 1 1 "CE" h⟩

/-! ## C2 — target / stop-loss checks take precedence -/

lemma closeAll_fold_effects (env : Env) :
    ∀ (l acc : List Pos) (ef : List Effect),
      ∀ e ∈ (l.foldl (closeStep env) (acc, ef)).2,
        e ∈ ef ∨ ∃ p, e = Effect.close p := by
  intro l
  induction l with
  | nil => intro acc ef e he; exact Or.inl he
  | cons p t ih =>
      intro acc ef e he
      rw [List.foldl_cons] at he
      rcases ih (closePositionS env p acc).1 (ef ++ (closePositionS env p acc).2)
          e he with h | h
      · rcases List.mem_append.mp h with h' | h'
        · exact Or.inl h'
        · right
          unfold closePositionS at h'
          split_ifs at h' <;> simp at h' <;> exact ⟨p, h'⟩
      · exact Or.inr h

lemma closeAllS_effects (env : Env) (ps : List Pos) :
    ∀ e ∈ (closeAllS env ps).2, ∃ p, e = Effect.close p := by
  intro e he
  exact (closeAll_fold_effects env ps ps [] e he).resolve_left (by simp)

lemma closePositionS_allok (env : Env) (hok : ∀ p, env.closeOk p = true)
    (p : Pos) (acc : List Pos) :
    closePositionS env p acc = (acc.erase p, [Effect.close p]) := by
  unfold closePositionS
  rw [if_pos (hok p)]
  by_cases hm : p ∈ acc
  · rw [if_pos hm]
  · rw [if_neg hm, List.erase_of_not_mem hm]

lemma closeAll_fold_allok (env : Env) (hok : ∀ p, env.closeOk p = true) :
    ∀ (l acc : List Pos) (ef : List Effect),
      l.foldl (closeStep env) (acc, ef)
        = (l.foldl (fun a p => a.erase p) acc, ef ++ l.map Effect.close) := by
  intro l
  induction l with
  | nil => intro acc ef; simp
  | cons p t ih =>
      intro acc ef
      rw [List.foldl_cons, List.foldl_cons]
      have hstep : closeStep env (acc, ef) p
          = (acc.erase p, ef ++ [Effect.close p]) := by
        unfold closeStep
        rw [closePositionS_allok env hok]
      rw [hstep, ih]
      simp

lemma erase_fold_self : ∀ l : List Pos,
    l.foldl (fun a p => a.erase p) l = [] := by
  intro l
  induction l with
  | nil => rfl
  | cons p t ih =>
      rw [List.foldl_cons, List.erase_cons_head]
      exact ih

/-- With every close submission accepted, `close_all_positions` empties
the ledger and submits one close per snapshot leg. -/
lemma closeAllS_allok (env : Env) (hok : ∀ p, env.closeOk p = true)
    (ps : List Pos) : closeAllS env ps = ([], ps.map Effect.close) := by
  unfold closeAllS
  rw [closeAll_fold_allok env hok, erase_fold_self]
  simp

/-- Shape of `StrategyA.tick` when the target or stop-loss gate fires. -/
lemma tickA_exit (env : Env) (s : AgentState) (cA : CtxA)
    (h : s.target_hit = true ∨ s.sl_hit = true) :
    (StrategyA.tick env s cA).1.positions = (closeAllS env s.positions).1 ∧
    (StrategyA.tick env s cA).1.active_strategy = none ∧
    (StrategyA.tick env s cA).1.roll_count = 0 ∧
    (StrategyA.tick env s cA).2.1.entered = false ∧
    (StrategyA.tick env s cA).2.1.short_leg = none ∧
    (StrategyA.tick env s cA).2.1.hedge_leg = none ∧
    ((StrategyA.tick env s cA).2.2 = (closeAllS env s.positions).2 ∨
     (StrategyA.tick env s cA).2.2
       = Effect.refresh_chain :: (closeAllS env s.positions).2) := by
  simp only [StrategyA.tick]
  by_cases hc : (cA.scan_counter + 1) % 60 = 0
  · rw [if_pos hc]
    have hrw1 : ({ s with option_chain := env.chain } : AgentState).target_hit
        = s.target_hit := rfl
    have hrw2 : ({ s with option_chain := env.chain } : AgentState).sl_hit
        = s.sl_hit := rfl
    by_cases ht : s.target_hit = true
    · rw [hrw1, if_pos ht]
      exact ⟨rfl, rfl, rfl, rfl, rfl, rfl, Or.inr rfl⟩
    · have hs' : s.sl_hit = true := h.resolve_left ht
      rw [hrw1, if_neg ht, hrw2, if_pos hs']
      exact ⟨rfl, rfl, rfl, rfl, rfl, rfl, Or.inr rfl⟩
  · rw [if_neg hc]
    by_cases ht : s.target_hit = true
    · rw [if_pos ht]
      exact ⟨rfl, rfl, rfl, rfl, rfl, rfl, Or.inl rfl⟩
    · have hs' : s.sl_hit = true := h.resolve_left ht
      rw [if_neg ht, if_pos hs']
      exact ⟨rfl, rfl, rfl, rfl, rfl, rfl, Or.inl rfl⟩

/-- Shape of `StrategyB.tick` when the target or stop-loss gate fires. -/
lemma tickB_exit (env : Env) (s : AgentState) (cB : CtxB)
    (h : s.target_hit = true ∨ s.sl_hit = true) :
    (StrategyB.tick env s cB).1.positions = (closeAllS env s.positions).1 ∧
    (StrategyB.tick env s cB).1.active_strategy = none ∧
    (StrategyB.tick env s cB).1.roll_count = 0 ∧
    (StrategyB.tick env s cB).2.1.entered = false ∧
    (StrategyB.tick env s cB).2.1.short_ce = none ∧
    (StrategyB.tick env s cB).2.1.short_pe = none ∧
    ((StrategyB.tick env s cB).2.2 = (closeAllS env s.positions).2 ∨
     (StrategyB.tick env s cB).2.2
       = Effect.refresh_chain :: (closeAllS env s.positions).2) := by
  simp only [StrategyB.tick]
  by_cases hc : (cB.scan_counter + 1) % 60 = 0
  · rw [if_pos hc]
    have hrw1 : ({ s with option_chain := env.chain } : AgentState).target_hit
        = s.target_hit := rfl
    have hrw2 : ({ s with option_chain := env.chain } : AgentState).sl_hit
        = s.sl_hit := rfl
    by_cases ht : s.target_hit = true
    · rw [hrw1, if_pos ht]
      exact ⟨rfl, rfl, rfl, rfl, rfl, rfl, Or.inr rfl⟩
    · have hs' : s.sl_hit = true := h.resolve_left ht
      rw [hrw1, if_neg ht, hrw2, if_pos hs']
      exact ⟨rfl, rfl, rfl, rfl, rfl, rfl, Or.inr rfl⟩
  · rw [if_neg hc]
    by_cases ht : s.target_hit = true
    · rw [if_pos ht]
      exact ⟨rfl, rfl, rfl, rfl, rfl, rfl, Or.inl rfl⟩
    · have hs' : s.sl_hit = true := h.resolve_left ht
      rw [if_neg ht, if_pos hs']
      exact ⟨rfl, rfl, rfl, rfl, rfl, rfl, Or.inl rfl⟩

/-- C2: on any tick of either variant that starts with the profit
target reached or the stop-loss breached, the tick closes every open leg
(with accepted close submissions the ledger ends empty), deactivates the
strategy, resets the run context (entered flag cleared, held-leg
references cleared, roll counter zeroed), and places no order — no
entry, monitoring or roll logic runs. -/
theorem C2_exit_checks_first (env : Env) (s : AgentState)
    (cA : CtxA) (cB : CtxB)
    (h : s.target_hit = true ∨ s.sl_hit = true) :
    ((StrategyA.tick env s cA).1.active_strategy = none ∧
     (StrategyA.tick env s cA).1.roll_count = 0 ∧
     (StrategyA.tick env s cA).2.1.entered = false ∧
     (StrategyA.tick env s cA).2.1.short_leg = none ∧
     (StrategyA.tick env s cA).2.1.hedge_leg = none ∧
     (∀ e ∈ (StrategyA.tick env s cA).2.2, e.isOrder = false) ∧
     ((∀ p, env.closeOk p = true) →
        (StrategyA.tick env s cA).1.positions = [])) ∧
    ((StrategyB.tick env s cB).1.active_strategy = none ∧
     (StrategyB.tick env s cB).1.roll_count = 0 ∧
     (StrategyB.tick env s cB).2.1.entered = false ∧
     (StrategyB.tick env s cB).2.1.short_ce = none ∧
     (StrategyB.tick env s cB).2.1.short_pe = none ∧
     (∀ e ∈ (StrategyB.tick env s cB).2.2, e.isOrder = false) ∧
     ((∀ p, env.closeOk p = true) →
        (StrategyB.tick env s cB).1.positions = [])) := by
  obtain ⟨hA1, hA2, hA3, hA4, hA5, hA6, hA7⟩ := tickA_exit env s cA h
  obtain ⟨hB1, hB2, hB3, hB4, hB5, hB6, hB7⟩ := tickB_exit env s cB h
  refine ⟨⟨hA2, hA3, hA4, hA5, hA6, ?_, ?_⟩, ⟨hB2, hB3, hB4, hB5, hB6, ?_, ?_⟩⟩
  · intro e he
    rcases hA7 with h7 | h7 <;> rw [h7] at he
    · obtain ⟨p, rfl⟩ := closeAllS_effects env s.positions e he
      rfl
    · rcases List.mem_cons.mp he with rfl | he'
      · rfl
      · obtain ⟨p, rfl⟩ := closeAllS_effects env s.positions e he'
        rfl
  · intro hok
    rw [hA1, closeAllS_allok env hok]
  · intro e he
    rcases hB7 with h7 | h7 <;> rw [h7] at he
    · obtain ⟨p, rfl⟩ := closeAllS_effects env s.positions e he
      rfl
    · rcases List.mem_cons.mp he with rfl | he'
      · rfl
      · obtain ⟨p, rfl⟩ := closeAllS_effects env s.positions e he'
        rfl
  · intro hok
    rw [hB1, closeAllS_allok env hok]

/-! ## Concrete example data (used by witnesses / counterexamples) -/

/-- Example configuration (integer-valued rationals so that concrete
runs reduce): capital 100 with 100% target/stop fractions gives a ±100
profit/loss gate; delta band [0, 1]; otherwise shaped like the
`state.py` defaults. -/
def cfgEx : Cfg :=
  ⟨100, 1, 1, 50, 5, 2, 400, 300, 1, 60, 100, 0, 1, 1⟩

/-- A broker on which every order placement fails, every close
submission succeeds, and every quote raises. -/
def envNoFill : Env := ⟨fun _ _ => none, fun _ => true, fun _ => none, [], true⟩

def quoteCE : OptQuote :=
  ⟨⟨"25SEP25", 20000, OptType.CE⟩, 20000, OptType.CE, "25SEP25",
   100, 600000, 1, 20, 3⟩

def quotePE : OptQuote :=
  ⟨⟨"25SEP25", 19800, OptType.PE⟩, 19800, OptType.PE, "25SEP25",
   90, 700000, -1, 20, 3⟩

def stEx : AgentState := ⟨[], 0, 0, none, [quoteCE, quotePE], 70, cfgEx⟩

/-- `stEx` with the session at +3000, past the profit target of 100. -/
def stEx2 : AgentState := { stEx with session_pnl := 3000 }

def ctxAEx : CtxA := ⟨false, none, none, 0⟩

def ctxBEx : CtxB := ⟨false, none, none, 0⟩

theorem C2_exit_checks_first_witness :
    stEx2.target_hit = true ∧
    (StrategyA.tick envNoFill stEx2 ctxAEx).1.positions = [] ∧
    (StrategyB.tick envNoFill stEx2 ctxBEx).1.positions = [] := by
  have h : stEx2.target_hit = true := by
    simp only [stEx2, stEx, cfgEx, AgentState.target_hit, decide_eq_true_eq]
    norm_num
  have hmain := C2_exit_checks_first envNoFill stEx2 ctxAEx ctxBEx (Or.inl h)
  exact ⟨h, hmain.1.2.2.2.2.2.2 (fun p => rfl),
         hmain.2.2.2.2.2.2.2 (fun p => rfl)⟩

/-! ## C3 — failed entry leaves the run idle -/

/-- C3 counterexample: `StrategyB._enter` marks the run entered and
records both short-leg references unconditionally, even when every one
of the four leg placements fails.  Concretely, on a broker where every
`place_order` returns `None`, the entry attempt secures no leg (the
ledger stays empty) yet the run ends with `entered = true` — an active
strategy holding nothing, contradicting the claimed return to IDLE. -/
theorem C3_enterB_counterexample :
    (StrategyB.enterB envNoFill stEx ctxBEx [quoteCE, quotePE]).2.1.entered = true ∧
    (StrategyB.enterB envNoFill stEx ctxBEx [quoteCE, quotePE]).2.1.short_ce
      = some quoteCE ∧
    (StrategyB.enterB envNoFill stEx ctxBEx [quoteCE, quotePE]).1.positions
      = [] := by
  refine ⟨?_, ?_, ?_⟩ <;> rfl

/-- C3 (amended): in Strategy A, an entry attempt on which some leg
placement fails leaves the run inactive — the entered flag and the
held-leg references are exactly as before (false / none), so the run is
back in IDLE.  In Strategy B, `_enter` sets the entered flag and the
short-leg references regardless of order placement outcomes (see the
counterexample), so the claim holds only for variant A. -/
theorem C3_enterA_failed_leg_leaves_idle (env : Env) (s : AgentState)
    (c : CtxA) (chain : List OptQuote)
    (hfail : ∀ o rest, StrategyA.candidatesA s.config chain = o :: rest →
       env.fill o.symbol Side.sell = none ∨
       env.fill (StrategyA.hedgeSymA env s.config o) Side.buy = none) :
    (StrategyA.enterA env s c chain).2.1.entered = c.entered ∧
    (StrategyA.enterA env s c chain).2.1.short_leg = c.short_leg ∧
    (StrategyA.enterA env s c chain).2.1.hedge_leg = c.hedge_leg := by
  unfold StrategyA.enterA
  cases hc : StrategyA.candidatesA s.config chain with
  | nil => exact ⟨rfl, rfl, rfl⟩
  | cons o rest =>
      rcases hfail o rest hc with h | h
      · cases h2 : env.fill (StrategyA.hedgeSymA env s.config o) Side.buy <;>
          simp [placeOrderS, h, h2]
      · cases h1 : env.fill o.symbol Side.sell <;>
          simp [placeOrderS, h, h1]

theorem C3_enterA_failed_leg_leaves_idle_witness :
    (StrategyA.enterA envNoFill stEx ctxAEx [quoteCE, quotePE]).2.1.entered
      = false ∧
    (StrategyA.enterA envNoFill stEx ctxAEx [quoteCE, quotePE]).2.1.short_leg
      = none ∧
    (StrategyA.enterA envNoFill stEx ctxAEx [quoteCE, quotePE]).2.1.hedge_leg
      = none := by
  have h := C3_enterA_failed_leg_leaves_idle envNoFill stEx ctxAEx
    [quoteCE, quotePE] (fun o rest hc => Or.inl rfl)
  exact ⟨h.1, h.2.1, h.2.2⟩

/-! ## C8 — the roll budget -/

lemma rollA_increments (env : Env) (s : AgentState) (c : CtxA)
    (current : OptQuote) :
    (StrategyA.rollA env s c current).1.roll_count = s.roll_count + 1 ∧
    (StrategyA.rollA env s c current).1.config = s.config := by
  unfold StrategyA.rollA
  dsimp only
  split
  · exact ⟨rfl, rfl⟩
  · split
    · exact ⟨rfl, rfl⟩
    · exact ⟨rfl, rfl⟩

lemma adjust_wing_increments (env : Env) (s : AgentState) (c : CtxB)
    (current : OptQuote) (ot : OptType) :
    (StrategyB.adjust_wing env s c current ot).1.roll_count
      = s.roll_count + 1 ∧
    (StrategyB.adjust_wing env s c current ot).1.config = s.config := by
  unfold StrategyB.adjust_wing
  dsimp only
  split
  · exact ⟨rfl, rfl⟩
  · split
    · exact ⟨rfl, rfl⟩
    · exact ⟨rfl, rfl⟩

/-- `StrategyA._monitor_positions` either leaves the roll counter alone,
resets it to 0 (decay exit), or — only with budget remaining —
increments it by one. -/
lemma monitorA_roll_spec (env : Env) (s : AgentState) (c : CtxA) :
    (StrategyA.monitorA env s c).1.config = s.config ∧
    ((StrategyA.monitorA env s c).1.roll_count = s.roll_count ∨
     (StrategyA.monitorA env s c).1.roll_count = 0 ∨
     (s.roll_count < s.config.max_rolls ∧
      (StrategyA.monitorA env s c).1.roll_count = s.roll_count + 1)) := by
  unfold StrategyA.monitorA
  cases hsl : c.short_leg with
  | none => exact ⟨rfl, Or.inl rfl⟩
  | some sl =>
      dsimp only
      cases hf : s.option_chain.find?
          (fun (o : OptQuote) => o.symbol == sl.quote.symbol) with
      | none => exact ⟨rfl, Or.inl rfl⟩
      | some current =>
          dsimp only
          by_cases hdec : s.config.decay_trigger_pct ≤
              (if 0 < sl.entry then 1 - current.ltp / sl.entry else 0)
          · rw [if_pos hdec]
            exact ⟨rfl, Or.inr (Or.inl rfl)⟩
          · rw [if_neg hdec]
            by_cases hbr : s.config.adjustment_delta < |current.delta| ∧
                s.roll_count < s.config.max_rolls
            · rw [if_pos hbr]
              have h := rollA_increments env s c current
              exact ⟨h.2, Or.inr (Or.inr ⟨hbr.2, h.1⟩)⟩
            · rw [if_neg hbr]
              exact ⟨rfl, Or.inl rfl⟩

/-- One `StrategyB._monitor` loop iteration: the counter is unchanged
or — only with budget remaining — incremented by one. -/
lemma monitorStepB_roll_spec (env : Env) (s : AgentState) (c : CtxB)
    (short : Option OptQuote) (ot : OptType) :
    (StrategyB.monitorStep env s c short ot).1.config = s.config ∧
    ((StrategyB.monitorStep env s c short ot).1.roll_count = s.roll_count ∨
     (s.roll_count < s.config.max_rolls ∧
      (StrategyB.monitorStep env s c short ot).1.roll_count
        = s.roll_count + 1)) := by
  unfold StrategyB.monitorStep
  cases short with
  | none => exact ⟨rfl, Or.inl rfl⟩
  | some sh =>
      dsimp only
      cases hf : s.option_chain.find?
          (fun (o : OptQuote) => o.symbol == sh.symbol) with
      | none => exact ⟨rfl, Or.inl rfl⟩
      | some current =>
          dsimp only
          by_cases hbr : s.config.adjustment_delta < |current.delta|
          · rw [if_pos hbr]
            by_cases hbudget : s.roll_count < s.config.max_rolls
            · rw [if_pos hbudget]
              have h := adjust_wing_increments env s c current ot
              exact ⟨h.2, Or.inr ⟨hbudget, h.1⟩⟩
            · rw [if_neg hbudget]
              exact ⟨rfl, Or.inl rfl⟩
          · rw [if_neg hbr]
            exact ⟨rfl, Or.inl rfl⟩

/-- C8: in both variants a delta breach rolls only while `roll_count`
is strictly below `max_rolls` and a roll increments the counter by
exactly one; hence monitoring keeps `roll_count ≤ max_rolls`, and with
the budget exhausted a further breach triggers no additional roll (in
variant A the counter can only stay or be reset by the decay exit; in
variant B it stays exactly put). -/
theorem C8_roll_budget (env : Env) (s : AgentState) (cA : CtxA) (cB : CtxB)
    (current : OptQuote) (ot : OptType)
    (hle : s.roll_count ≤ s.config.max_rolls) :
    (StrategyA.rollA env s cA current).1.roll_count = s.roll_count + 1 ∧
    (StrategyB.adjust_wing env s cB current ot).1.roll_count
      = s.roll_count + 1 ∧
    (StrategyA.monitorA env s cA).1.roll_count ≤ s.config.max_rolls ∧
    (StrategyB.monitorB env s cB).1.roll_count ≤ s.config.max_rolls ∧
    (s.roll_count = s.config.max_rolls →
       (StrategyA.monitorA env s cA).1.roll_count ≤ s.roll_count ∧
       (StrategyB.monitorB env s cB).1.roll_count = s.roll_count) := by
  have hA := monitorA_roll_spec env s cA
  have hB1 := monitorStepB_roll_spec env s cB cB.short_ce OptType.CE
  have hB2 := monitorStepB_roll_spec env
    (StrategyB.monitorStep env s cB cB.short_ce OptType.CE).1
    (StrategyB.monitorStep env s cB cB.short_ce OptType.CE).2.1
    (StrategyB.monitorStep env s cB cB.short_ce OptType.CE).2.1.short_pe
    OptType.PE
  have hmB : (StrategyB.monitorB env s cB).1.roll_count
      = (StrategyB.monitorStep env
          (StrategyB.monitorStep env s cB cB.short_ce OptType.CE).1
          (StrategyB.monitorStep env s cB cB.short_ce OptType.CE).2.1
          (StrategyB.monitorStep env s cB cB.short_ce OptType.CE).2.1.short_pe
          OptType.PE).1.roll_count := rfl
  refine ⟨(rollA_increments env s cA current).1,
          (adjust_wing_increments env s cB current ot).1, ?_, ?_, ?_⟩
  · rcases hA.2 with h | h | h
    · omega
    · omega
    · omega
  · rw [hmB]
    rw [hB1.1] at hB2
    rcases hB1.2 with h1 | h1 <;> rcases hB2.2 with h2 | h2 <;> omega
  · intro hmax
    constructor
    · rcases hA.2 with h | h | h
      · omega
      · omega
      · omega
    · rw [hmB]
      rw [hB1.1] at hB2
      rcases hB1.2 with h1 | h1 <;> rcases hB2.2 with h2 | h2 <;> omega

theorem C8_roll_budget_witness :
    (StrategyA.rollA envNoFill stEx ctxAEx quoteCE).1.roll_count = 1 ∧
    (StrategyB.monitorB envNoFill stEx ctxBEx).1.roll_count ≤ 5 := by
  have h := C8_roll_budget envNoFill stEx ctxAEx ctxBEx quoteCE OptType.CE
    (by norm_num [stEx, cfgEx])
  exact ⟨h.1, h.2.2.2.1⟩
